import Mathlib

/-
  Shallow embedding of the CPUX / IPTP orchestration engine
  (spicecoder/iptp_paper).

  The JavaScript sources keep their state in plain objects (`{}`) and
  `Map`s keyed by strings.  Both are modelled as association lists
  `List (String × α)` with the JS semantics: a key occurs at most once,
  assignment replaces the existing binding or appends a fresh one,
  `delete` removes the binding, and lookup returns the first binding.

  Pulses carry an opaque JSON payload in their `response` slot; payloads
  are modelled as opaque strings.  The enhanced server can accumulate
  several payloads into an array, so field-resident payloads are a small
  inductive (`Resp`).  Wall-clock timestamps written by `fieldAbsorb`
  (`new Date().toISOString()`) are not modelled: no operation of the
  engine ever reads them back.
-/

namespace IPTP

/-- A pulse as it travels in a signal: `{name, TV, response}`.
`TV` is the truth value string (the sources use "Y"/"N"), `response`
is the optional opaque payload (`none` = absent / `undefined`). -/
structure SigPulse where
  name : String
  TV : String
  response : Option String
deriving DecidableEq

/-- Payload slot of a pulse stored in a field.  `null` is the JS `null`,
`single` a scalar payload, `multi` the array the enhanced server builds
when accumulating payloads under `consume=false`. -/
inductive Resp where
  | null : Resp
  | single : String → Resp
  | multi : List String → Resp
deriving DecidableEq

/-- JS `x || null` applied to an optional incoming payload. -/
def Resp.ofOption : Option String → Resp
  | none => Resp.null
  | some v => Resp.single v

/-- A pulse as stored in a field: `{name, TV, response}` (timestamp
omitted, see header comment). -/
structure FieldPulse where
  name : String
  TV : String
  response : Resp
deriving DecidableEq

/-- JS object / `Map` lookup: first binding with the given key. -/
def getK {α : Type} (m : List (String × α)) (k : String) : Option α :=
  (m.find? (fun kv => kv.fst == k)).map (fun kv => kv.snd)

/-- JS object / `Map` assignment: replace the existing binding for `k`,
or append a fresh one. -/
def setK {α : Type} (m : List (String × α)) (k : String) (v : α) : List (String × α) :=
  if m.any (fun kv => kv.fst == k) then
    m.map (fun kv => if kv.fst == k then (k, v) else kv)
  else
    m ++ [(k, v)]

/-- JS `delete m[k]`. -/
def delK {α : Type} (m : List (String × α)) (k : String) : List (String × α) :=
  m.filter (fun kv => kv.fst != k)

/-- A semantic field: pulse name to stored pulse, as a JS object. -/
def SemField : Type := List (String × FieldPulse)

instance : DecidableEq SemField := by
  unfold SemField
  infer_instance

/-- Truth value currently recorded in the field for a name, if any.
Matching only ever depends on this view of a field. -/
def tvAt (f : SemField) (n : String) : Option String :=
  (getK f n).map (fun p => p.TV)

end IPTP

-- ======================================================================
-- src/clean_cpux_server.js
-- ======================================================================

namespace CleanServer

open IPTP

/-- Field absorption of `clean_cpux_server.js` (lines 103-116): every
incoming pulse is written into (a copy of) the field, overwriting any
existing pulse of the same name; `response` is `pulse.response || null`. -/
def fieldAbsorb (incomingSignal : List SigPulse) (currentField : SemField) : SemField :=
  incomingSignal.foldl
    (fun updatedField pulse =>
      setK updatedField pulse.name
        { name := pulse.name, TV := pulse.TV, response := Resp.ofOption pulse.response })
    currentField

/-- Field match of `clean_cpux_server.js` (lines 118-123): every required
pulse must be present with the same `TV`. -/
def fieldMatch (field : SemField) (requiredSignal : List SigPulse) : Bool :=
  requiredSignal.all (fun requiredPulse =>
    match getK field requiredPulse.name with
    | some fieldPulse => fieldPulse.TV == requiredPulse.TV
    | none => false)

end CleanServer

-- ======================================================================
-- src/object-server.js
-- ======================================================================

namespace ObjectServer

open IPTP

/-- Field match of `object-server.js` (lines 45-47):
`condition.every(p => field[p.name]?.TV === p.TV)`. -/
def fieldMatch (field : SemField) (condition : List SigPulse) : Bool :=
  condition.all (fun p => ((getK field p.name).map (fun fp => fp.TV)) == some p.TV)

end ObjectServer

-- ======================================================================
-- src/unnamed/part_002 (utils/field.js)
-- ======================================================================

namespace FieldUtilsJs

open IPTP

/-- Field absorption of `utils/field.js` (src/unnamed/part_002): a pulse
is written only when `consume` is true or the name is absent; with
`consume=false` an existing pulse is left untouched. -/
def fieldAbsorb (signal : List SigPulse) (field : SemField) (consume : Bool) : SemField :=
  signal.foldl
    (fun updated pulse =>
      if consume || (getK updated pulse.name).isNone then
        setK updated pulse.name
          { name := pulse.name, TV := pulse.TV, response := Resp.ofOption pulse.response }
      else
        updated)
    field

end FieldUtilsJs

-- ======================================================================
-- src/enhanced_cpux_server.js
-- ======================================================================

namespace EnhancedServer

open IPTP

/-- Payload merge of the enhanced server when `consume` is false
(lines 205-216): push onto an existing array, turn a scalar into a pair,
or store the first payload. -/
def accumulate (existing : Resp) (incoming : String) : Resp :=
  match existing with
  | Resp.multi vs => Resp.multi (vs ++ [incoming])
  | Resp.single v => Resp.multi [v, incoming]
  | Resp.null => Resp.single incoming

/-- Field absorption of `enhanced_cpux_server.js` (lines 180-233): the
`TV` of an existing pulse is always overwritten; the payload is replaced
under `consume=true` and accumulated under `consume=false`; absent names
are inserted. -/
def fieldAbsorb (incomingSignal : List SigPulse) (currentField : SemField)
    (consume : Bool) : SemField :=
  incomingSignal.foldl
    (fun updatedField incomingPulse =>
      match getK updatedField incomingPulse.name with
      | some existingPulse =>
        let p1 : FieldPulse :=
          { existingPulse with TV := incomingPulse.TV }
        let p2 : FieldPulse :=
          match incomingPulse.response with
          | none => p1
          | some r =>
            if consume then { p1 with response := Resp.single r }
            else { p1 with response := accumulate p1.response r }
        setK updatedField incomingPulse.name p2
      | none =>
        setK updatedField incomingPulse.name
          { name := incomingPulse.name, TV := incomingPulse.TV,
            response := Resp.ofOption incomingPulse.response })
    currentField

/-- Local consumption of a dispatched step's design-time signal in
`runCPUX` (lines 358-373 and 435-448): after a successful dispatch with
`consumeSignal` true, each pulse named in the design-time signal is
deleted from the CPUX field. -/
def consumeDesignTimeSignal (designTimeSignal : List SigPulse) (field : SemField) : SemField :=
  designTimeSignal.foldl
    (fun f pulse => if (getK f pulse.name).isSome then delK f pulse.name else f)
    field

/-- The dispatcher-side field effect of a successful dispatch, selected
by the step's `consumeSignal` flag. -/
def dispatchFieldEffect (consumeSignal : Bool) (designTimeSignal : List SigPulse)
    (field : SemField) : SemField :=
  if consumeSignal then consumeDesignTimeSignal designTimeSignal field else field

end EnhancedServer

-- ======================================================================
-- src/enhanced_dn_server.js
-- ======================================================================

namespace DnServer

open IPTP

/-- A registered DN container: only its valve matters to the accept /
reject decision; the opaque handler body is out of scope here. -/
structure Container where
  valve : List SigPulse
deriving DecidableEq

/-- Body of a `POST /execute` request (the fields the endpoint reads). -/
structure ExecuteRequest where
  cpuxId : String
  stepId : Nat
  target : String
  signal : List SigPulse
  dnInstanceId : Option String
deriving DecidableEq

/-- The synchronous reply of `POST /execute`: a status string and, for
rejections, a reason.  The source's three rejections are the unknown-DN
400 reply (its body carries an `error` text, modelled as the reason
"unknown_dn"), "instance_busy" and "valve_conditions_not_met". -/
structure ExecuteReply where
  status : String
  reason : Option String
deriving DecidableEq

/-- Instance id used by the endpoint: the provided `dnInstanceId` or the
fallback `cpuxId:stepId:target` (line 213). -/
def instanceIdOf (req : ExecuteRequest) : String :=
  match req.dnInstanceId with
  | some iid => iid
  | none => req.cpuxId ++ ":" ++ toString req.stepId ++ ":" ++ req.target

/-- Valve check (lines 230-236): every valve pulse must occur in the
incoming signal with the same name and `TV`. -/
def valveCheck (valve : List SigPulse) (signal : List SigPulse) : Bool :=
  valve.all (fun requiredPulse =>
    signal.any (fun incomingPulse =>
      incomingPulse.name == requiredPulse.name && incomingPulse.TV == requiredPulse.TV))

/-- The `POST /execute` endpoint of `enhanced_dn_server.js`
(lines 195-283), as a function of the container registry and the
`activeInstances` map (instance id to status string).  It returns the
reply, the updated `activeInstances`, and whether the asynchronous
handler (`processAsyncAndEmit`) was started. -/
def executeEndpoint (containers : List (String × Container))
    (activeInstances : List (String × String)) (req : ExecuteRequest) :
    ExecuteReply × List (String × String) × Bool :=
  match getK containers req.target with
  | none =>
    ({ status := "rejected", reason := some "unknown_dn" }, activeInstances, false)
  | some container =>
    let instanceId := instanceIdOf req
    if getK activeInstances instanceId == some "running" then
      ({ status := "rejected", reason := some "instance_busy" }, activeInstances, false)
    else if !(valveCheck container.valve req.signal) then
      ({ status := "rejected", reason := some "valve_conditions_not_met" },
        activeInstances, false)
    else
      ({ status := "accepted", reason := none },
        setK activeInstances instanceId "running", true)

end DnServer

-- ======================================================================
-- src/clean_cpux_server.js: scheduler state machine
-- ======================================================================

namespace CleanServer

open IPTP

/-- A step of the CPUX sequence (the fields the clean server reads). -/
structure Step where
  stepId : Nat
  intention : String
  designTimeSignal : List SigPulse
  target : String
  type : String
deriving DecidableEq

/-- Execution-log key of a step (line 166). -/
def stepKey (step : Step) : String :=
  toString step.stepId ++ ":" ++ step.intention ++ ":" ++ step.target

/-- Instance id of a DN-kind step (lines 129 and 216). -/
def dnInstanceId (contextId : String) (step : Step) : String :=
  contextId ++ ":" ++ toString step.stepId ++ ":" ++ step.target

/-- The remote world, as the orchestrator observes it during one
dispatch: whether a DN target replies `accepted` to `/execute` and
whether an Object target's `/execute` POST succeeds.  Modelling the
replies as a fixed function of the step expresses that nothing on the
remote side changes between the passes under comparison. -/
structure Env where
  dnAccepts : Step → Bool
  objectPostOk : Step → Bool

/-- Mutable state of the clean CPUX server: `cpuxField`, `executionLog`
(a `Set` of step keys, kept in insertion order) and `memberStatus`
(DN instance id to status string). -/
structure CpuxState where
  cpuxField : SemField
  executionLog : List String
  memberStatus : List (String × String)
deriving DecidableEq

/-- JS `Set.add` on the execution log. -/
def logAdd (log : List String) (k : String) : List String :=
  if log.contains k then log else log ++ [k]

/-- `executeStep` (lines 198-298) restricted to its observable effect:
whether the step counts as executed and the resulting server state.
Object steps succeed iff the POST does; DN steps require their instance
to be `ready` and the target to reply `accepted`, in which case the
instance becomes `busy`; final steps always succeed; an unknown type
yields false.  The field is never touched here. -/
def executeStep (contextId : String) (env : Env) (st : CpuxState) (step : Step) :
    Bool × CpuxState :=
  if step.type == "object" then
    (env.objectPostOk step, st)
  else if step.type == "dn" then
    if getK st.memberStatus (dnInstanceId contextId step) != some "ready" then
      (false, st)
    else if env.dnAccepts step then
      (true, { st with
        memberStatus := setK st.memberStatus (dnInstanceId contextId step) "busy" })
    else
      (false, st)
  else if step.type == "final" then
    (true, st)
  else
    (false, st)

/-- One iteration of the pass loop (lines 165-191): skip steps already
logged, skip field mismatches, otherwise execute and, on success, add
the step key to the log.  Returns (executed?, new state). -/
def passStep (contextId : String) (env : Env) (st : CpuxState) (step : Step) :
    Bool × CpuxState :=
  if st.executionLog.contains (stepKey step) then
    (false, st)
  else if !(fieldMatch st.cpuxField step.designTimeSignal) then
    (false, st)
  else
    match executeStep contextId env st step with
    | (true, st2) =>
      (true, { st2 with executionLog := logAdd st2.executionLog (stepKey step) })
    | (false, st2) => (false, st2)

/-- Fold step of `executeSequencePass`, threading the activation count. -/
def passFold (contextId : String) (env : Env) (acc : Nat × CpuxState) (step : Step) :
    Nat × CpuxState :=
  match passStep contextId env acc.snd step with
  | (true, st2) => (acc.fst + 1, st2)
  | (false, st2) => (acc.fst, st2)

/-- `executeSequencePass` (lines 160-195): a single left-to-right scan of
the sequence, returning the number of activations and the new state. -/
def executeSequencePass (contextId : String) (env : Env) (sequence : List Step)
    (st : CpuxState) : Nat × CpuxState :=
  sequence.foldl (passFold contextId env) (0, st)

/-- The `POST /cpux/intention` intake endpoint (lines 302-349) as a
function of the request fields it reads: on a context mismatch it
replies 400 before touching any state; otherwise it absorbs the signal,
marks the emitting DN instance ready (when one is named) and runs one
scheduler pass.  Returns (state, number of scheduler passes run,
error reply).  The read-only `checkCompletion` call is omitted. -/
def receiveEmission (contextId : String) (env : Env) (sequence : List Step)
    (cpuxId : String) (signal : List SigPulse) (dnInstanceIdReq : Option String)
    (st : CpuxState) : CpuxState × Nat × Option String :=
  if cpuxId != contextId then
    (st, 0, some "Wrong CPUX context")
  else
    let st1 : CpuxState := { st with cpuxField := fieldAbsorb signal st.cpuxField }
    let st2 : CpuxState :=
      match dnInstanceIdReq with
      | some iid => { st1 with memberStatus := setK st1.memberStatus iid "ready" }
      | none => st1
    let r := executeSequencePass contextId env sequence st2
    (r.snd, 1, none)

/-- Guards of the pass body collected into one test: a step executes in
the current state iff its key is not logged, its design-time signal
matches the field, and `executeStep` reports success. -/
def willExec (contextId : String) (env : Env) (st : CpuxState) (step : Step) : Bool :=
  !(st.executionLog.contains (stepKey step)) &&
    fieldMatch st.cpuxField step.designTimeSignal &&
    (executeStep contextId env st step).fst

/-- The state reached by one pass, ignoring the activation count. -/
def passState (contextId : String) (env : Env) (sequence : List Step)
    (st : CpuxState) : CpuxState :=
  sequence.foldl (fun st step => (passStep contextId env st step).snd) st

end CleanServer

-- ======================================================================
-- Theorems
-- ======================================================================

open IPTP

-- Association map lemmas -----------------------------------------------

theorem getK_cons {α : Type} (kv : String × α) (m : List (String × α)) (k : String) :
    getK (kv :: m) k = if kv.fst == k then some kv.snd else getK m k := by
  cases h : (kv.fst == k) <;> simp [getK, List.find?, h]

theorem getK_append {α : Type} (m₁ m₂ : List (String × α)) (k : String) :
    getK (m₁ ++ m₂) k = (getK m₁ k).or (getK m₂ k) := by
  induction m₁ with
  | nil => simp [getK]
  | cons kv m ih =>
    rw [List.cons_append, getK_cons, getK_cons]
    cases h : (kv.fst == k) <;> simp [h, ih]

theorem getK_none_of_not_any {α : Type} (m : List (String × α)) (k : String)
    (hany : m.any (fun kv => kv.fst == k) = false) : getK m k = none := by
  induction m with
  | nil => rfl
  | cons kv m ih =>
    simp only [List.any_cons, Bool.or_eq_false_iff] at hany
    rw [getK_cons, hany.1]
    simpa using ih hany.2

theorem getK_replace_self {α : Type} (m : List (String × α)) (k : String) (v : α)
    (hany : m.any (fun kv => kv.fst == k) = true) :
    getK (m.map (fun kv => if kv.fst == k then (k, v) else kv)) k = some v := by
  induction m with
  | nil => simp at hany
  | cons kv m ih =>
    cases h : (kv.fst == k) with
    | false =>
      simp only [List.any_cons, h, Bool.false_or] at hany
      simp only [List.map_cons, h, Bool.false_eq_true, if_false]
      rw [getK_cons, h]
      simpa using ih hany
    | true =>
      have hkk : kv.fst = k := by simpa using h
      simp [List.map_cons, h, hkk, getK_cons]

theorem getK_replace_ne {α : Type} (m : List (String × α)) (k k' : String) (v : α)
    (h : k' ≠ k) :
    getK (m.map (fun kv => if kv.fst == k then (k, v) else kv)) k' = getK m k' := by
  induction m with
  | nil => rfl
  | cons kv m ih =>
    cases hk : (kv.fst == k) with
    | true =>
      have hkk : kv.fst = k := by simpa using hk
      simp only [List.map_cons, hk, if_true]
      rw [getK_cons, getK_cons]
      have h1 : (k == k') = false := by
        simp only [beq_eq_false_iff_ne]
        exact fun hc => h hc.symm
      have h2 : (kv.fst == k') = false := by
        simp only [beq_eq_false_iff_ne, hkk]
        exact fun hc => h hc.symm
      simp only [h1, h2, Bool.false_eq_true, if_false]
      exact ih
    | false =>
      simp only [List.map_cons, hk, Bool.false_eq_true, if_false]
      rw [getK_cons, getK_cons]
      cases h2 : (kv.fst == k') with
      | true => simp [h2]
      | false =>
        simp only [h2, Bool.false_eq_true, if_false]
        exact ih

theorem getK_setK_self {α : Type} (m : List (String × α)) (k : String) (v : α) :
    getK (setK m k v) k = some v := by
  unfold setK
  cases hany : (m.any fun kv => kv.fst == k) with
  | true =>
    simp only [hany, if_true]
    exact getK_replace_self m k v hany
  | false =>
    simp only [hany, Bool.false_eq_true, if_false]
    rw [getK_append, getK_none_of_not_any m k hany]
    simp [getK_cons]

theorem getK_setK_ne {α : Type} (m : List (String × α)) (k k' : String) (v : α)
    (h : k' ≠ k) : getK (setK m k v) k' = getK m k' := by
  unfold setK
  cases hany : (m.any fun kv => kv.fst == k) with
  | true =>
    simp only [hany, if_true]
    exact getK_replace_ne m k k' v h
  | false =>
    simp only [hany, Bool.false_eq_true, if_false]
    rw [getK_append]
    have hk : (k == k') = false := by
      simp only [beq_eq_false_iff_ne]
      exact fun hc => h hc.symm
    simp [getK_cons, hk, getK]

theorem getK_delK {α : Type} (m : List (String × α)) (k k' : String) :
    getK (delK m k) k' = if k' = k then none else getK m k' := by
  induction m with
  | nil => simp [delK, getK]
  | cons kv m ih =>
    cases hk : (kv.fst == k) with
    | true =>
      have hkk : kv.fst = k := by simpa using hk
      have hne : (kv.fst != k) = false := by simp [bne, hk]
      simp only [delK, List.filter_cons, hne, Bool.false_eq_true, if_false]
      rw [show (List.filter (fun kv => kv.fst != k) m) = delK m k from rfl, ih, getK_cons]
      by_cases h : k' = k
      · simp [h]
      · have h2 : (kv.fst == k') = false := by
          simp only [beq_eq_false_iff_ne, hkk]
          exact fun hc => h hc.symm
        simp [h, h2]
    | false =>
      have hne : (kv.fst != k) = true := by simp [bne, hk]
      simp only [delK, List.filter_cons, hne, if_true]
      rw [getK_cons, show (List.filter (fun kv => kv.fst != k) m) = delK m k from rfl, ih,
        getK_cons]
      cases h2 : (kv.fst == k') with
      | true =>
        have h2k : kv.fst = k' := by simpa using h2
        have hne2 : ¬ (k' = k) := by
          intro hc
          rw [hc] at h2k
          exact absurd h2k (by simpa using hk)
        simp [h2, hne2]
      | false => simp [h2]

theorem getK_setK {α : Type} (m : List (String × α)) (k k' : String) (v : α) :
    getK (setK m k v) k' = if k' = k then some v else getK m k' := by
  by_cases h : k' = k
  · rw [h, if_pos rfl]
    exact getK_setK_self m k v
  · rw [if_neg h]
    exact getK_setK_ne m k k' v h

theorem tvAt_setK (f : SemField) (k : String) (v : FieldPulse) (n : String) :
    tvAt (setK f k v) n = if n = k then some v.TV else tvAt f n := by
  unfold tvAt
  rw [getK_setK]
  by_cases h : n = k <;> simp [h]

-- Field match lemmas ---------------------------------------------------

theorem fieldMatch_elem (f : SemField) (rp : SigPulse) :
    (match getK f rp.name with
      | some fieldPulse => fieldPulse.TV == rp.TV
      | none => false) = (tvAt f rp.name == some rp.TV) := by
  cases h : getK f rp.name with
  | none => simp [tvAt, h]
  | some fp =>
    simp only [tvAt, h, Option.map_some]
    rw [Bool.eq_iff_iff]
    simp [beq_iff_eq]

theorem fieldMatch_eq_all_tvAt (f : SemField) (pre : List SigPulse) :
    CleanServer.fieldMatch f pre = pre.all (fun rp => tvAt f rp.name == some rp.TV) := by
  unfold CleanServer.fieldMatch
  induction pre with
  | nil => rfl
  | cons rp rest ih => rw [List.all_cons, List.all_cons, fieldMatch_elem, ih]

theorem fieldMatch_true_iff (f : SemField) (pre : List SigPulse) :
    CleanServer.fieldMatch f pre = true ↔ ∀ rp ∈ pre, tvAt f rp.name = some rp.TV := by
  rw [fieldMatch_eq_all_tvAt, List.all_eq_true]
  constructor
  · intro h rp hrp
    have := h rp hrp
    simpa [beq_iff_eq] using this
  · intro h rp hrp
    simpa [beq_iff_eq] using h rp hrp

theorem tvAt_eq_some_iff (f : SemField) (n tv : String) :
    tvAt f n = some tv ↔ ∃ fp, getK f n = some fp ∧ fp.TV = tv := by
  cases h : getK f n with
  | none => simp [tvAt, h]
  | some fp => simp [tvAt, h]

theorem objectMatch_eq_cleanMatch (f : SemField) (pre : List SigPulse) :
    ObjectServer.fieldMatch f pre = CleanServer.fieldMatch f pre := by
  unfold ObjectServer.fieldMatch
  rw [fieldMatch_eq_all_tvAt]
  unfold tvAt
  rfl

/-- C1: `fieldMatch(field, precondition)` is true iff every required
pulse name is present in the field with an equal truth value; the empty
precondition matches any field; the result depends only on the names and
truth values in the field, never on payloads; and the `object-server.js`
variant of `fieldMatch` agrees with the `clean_cpux_server.js` one. -/
theorem claim_C1_fieldMatch_iff :
    ∀ (field altField : SemField) (precondition : List SigPulse),
      (CleanServer.fieldMatch field precondition = true ↔
        ∀ rp ∈ precondition, ∃ fp, getK field rp.name = some fp ∧ fp.TV = rp.TV) ∧
      CleanServer.fieldMatch field ([] : List SigPulse) = true ∧
      ((∀ n, tvAt field n = tvAt altField n) →
        CleanServer.fieldMatch field precondition =
          CleanServer.fieldMatch altField precondition) ∧
      ObjectServer.fieldMatch field precondition = CleanServer.fieldMatch field precondition := by
  intro field altField precondition
  refine ⟨?_, rfl, ?_, objectMatch_eq_cleanMatch field precondition⟩
  · rw [fieldMatch_true_iff]
    constructor
    · intro h rp hrp
      exact (tvAt_eq_some_iff field rp.name rp.TV).mp (h rp hrp)
    · intro h rp hrp
      exact (tvAt_eq_some_iff field rp.name rp.TV).mpr (h rp hrp)
  · intro h
    rw [fieldMatch_eq_all_tvAt, fieldMatch_eq_all_tvAt]
    have hf : (fun rp : SigPulse => tvAt field rp.name == some rp.TV) =
        (fun rp : SigPulse => tvAt altField rp.name == some rp.TV) := by
      funext rp
      rw [h rp.name]
    rw [hf]

/-- C1 witness: payload difference does not change a successful match. -/
theorem claim_C1_fieldMatch_iff_witness :
    CleanServer.fieldMatch
        [("a", { name := "a", TV := "Y", response := Resp.single "payload" })]
        [{ name := "a", TV := "Y", response := none }] =
      CleanServer.fieldMatch
        [("a", { name := "a", TV := "Y", response := Resp.null })]
        [{ name := "a", TV := "Y", response := none }] := by
  refine (claim_C1_fieldMatch_iff
      [("a", { name := "a", TV := "Y", response := Resp.single "payload" })]
      [("a", { name := "a", TV := "Y", response := Resp.null })]
      [{ name := "a", TV := "Y", response := none }]).2.2.1 ?_
  intro n
  unfold tvAt
  rw [getK_cons, getK_cons]
  cases h : (("a" : String) == n) <;> simp [h]

/-- C2: the claim asserts that absorbing a pulse whose name is already
present overwrites its truth value even when `consume` is false.  The
`utils/field.js` variant (src/unnamed/part_002) violates this: with
`consume=false` it leaves the existing pulse untouched, while the
`enhanced_cpux_server.js` and `clean_cpux_server.js` variants do
overwrite on the same input.  This evaluates all three at the failing
input. -/
theorem claim_C2_utils_absorb :
    tvAt (FieldUtilsJs.fieldAbsorb [{ name := "a", TV := "N", response := none }]
        [("a", { name := "a", TV := "Y", response := Resp.null })] false) "a" = some "Y" ∧
    tvAt (EnhancedServer.fieldAbsorb [{ name := "a", TV := "N", response := none }]
        [("a", { name := "a", TV := "Y", response := Resp.null })] false) "a" = some "N" ∧
    tvAt (CleanServer.fieldAbsorb [{ name := "a", TV := "N", response := none }]
        [("a", { name := "a", TV := "Y", response := Resp.null })]) "a" = some "N" :=
  ⟨by decide, by decide, by decide⟩

-- Absorption lemmas ----------------------------------------------------

theorem tvAt_enhanced_absorb_single (f : SemField) (p : SigPulse) (c : Bool) :
    tvAt (EnhancedServer.fieldAbsorb [p] f c) p.name = some p.TV := by
  unfold EnhancedServer.fieldAbsorb
  simp only [List.foldl_cons, List.foldl_nil]
  cases h : getK f p.name with
  | none => simp [h, tvAt, getK_setK_self, Resp.ofOption]
  | some ex =>
    cases hr : p.response with
    | none => simp [h, hr, tvAt, getK_setK_self]
    | some r => cases c <;> simp [h, hr, tvAt, getK_setK_self]

theorem tvAt_clean_absorb_single (f : SemField) (p : SigPulse) :
    tvAt (CleanServer.fieldAbsorb [p] f) p.name = some p.TV := by
  unfold CleanServer.fieldAbsorb
  simp [tvAt, getK_setK_self]

/-- C8: absorbing the same pulse twice with `consume=true` leaves the
same truth value at that pulse's name as absorbing it once, both for the
enhanced server's `fieldAbsorb` (which has the `consume` flag) and for
the clean server's `fieldAbsorb` (which always overwrites). -/
theorem claim_C8_absorb_idempotent_tv :
    ∀ (field : SemField) (pulse : SigPulse),
      tvAt (EnhancedServer.fieldAbsorb [pulse]
          (EnhancedServer.fieldAbsorb [pulse] field true) true) pulse.name =
        tvAt (EnhancedServer.fieldAbsorb [pulse] field true) pulse.name ∧
      tvAt (CleanServer.fieldAbsorb [pulse]
          (CleanServer.fieldAbsorb [pulse] field)) pulse.name =
        tvAt (CleanServer.fieldAbsorb [pulse] field) pulse.name := by
  intro field pulse
  constructor
  · rw [tvAt_enhanced_absorb_single, tvAt_enhanced_absorb_single]
  · rw [tvAt_clean_absorb_single, tvAt_clean_absorb_single]

-- Consumption lemmas ---------------------------------------------------

theorem getK_consumeDesignTimeSignal (sig : List SigPulse) (f : SemField) (n : String) :
    getK (EnhancedServer.consumeDesignTimeSignal sig f) n =
      if n ∈ sig.map (fun p => p.name) then none else getK f n := by
  induction sig generalizing f with
  | nil => simp [EnhancedServer.consumeDesignTimeSignal]
  | cons p rest ih =>
    have hstep : EnhancedServer.consumeDesignTimeSignal (p :: rest) f =
        EnhancedServer.consumeDesignTimeSignal rest
          (if (getK f p.name).isSome then delK f p.name else f) := rfl
    rw [hstep, ih]
    by_cases hmem : n ∈ rest.map (fun p => p.name)
    · simp [hmem]
    · by_cases hn : n = p.name
      · simp only [hmem, if_false, List.map_cons, List.mem_cons, hn, true_or, if_true]
        cases hs : getK f p.name with
        | none => simp [hs, hn]
        | some fp => simp [hs, getK_delK, hn]
      · have hnotin : ¬ n ∈ List.map (fun p => p.name) (p :: rest) := by
          simp only [List.map_cons, List.mem_cons]
          push_neg
          exact ⟨hn, hmem⟩
        simp only [hmem, if_false, hnotin, if_false]
        cases hs : getK f p.name with
        | none => simp [hs]
        | some fp => simp [hs, getK_delK, hn]

/-- C9: with consumption mode Absorb (`consumeSignal` true) a successful
dispatch removes exactly the pulses named in the step's design-time
signal from the dispatcher's field and leaves every other name
untouched; with mode Copy (`consumeSignal` false) the dispatcher's field
is unchanged. -/
theorem claim_C9_consumption_mode_effect :
    ∀ (designTimeSignal : List SigPulse) (field : SemField) (n : String),
      (n ∈ designTimeSignal.map (fun p => p.name) →
        getK (EnhancedServer.dispatchFieldEffect true designTimeSignal field) n = none) ∧
      (n ∉ designTimeSignal.map (fun p => p.name) →
        getK (EnhancedServer.dispatchFieldEffect true designTimeSignal field) n =
          getK field n) ∧
      EnhancedServer.dispatchFieldEffect false designTimeSignal field = field := by
  intro sig field n
  refine ⟨?_, ?_, rfl⟩
  · intro hmem
    unfold EnhancedServer.dispatchFieldEffect
    rw [if_pos rfl, getK_consumeDesignTimeSignal, if_pos hmem]
  · intro hmem
    unfold EnhancedServer.dispatchFieldEffect
    rw [if_pos rfl, getK_consumeDesignTimeSignal, if_neg hmem]

/-- C9 witness: a concrete Absorb dispatch removes the named pulse "a"
and keeps the unrelated pulse "b". -/
theorem claim_C9_consumption_mode_effect_witness :
    getK (EnhancedServer.dispatchFieldEffect true
        [{ name := "a", TV := "Y", response := none }]
        [("a", { name := "a", TV := "Y", response := Resp.null }),
         ("b", { name := "b", TV := "Y", response := Resp.null })]) "a" = none ∧
    getK (EnhancedServer.dispatchFieldEffect true
        [{ name := "a", TV := "Y", response := none }]
        [("a", { name := "a", TV := "Y", response := Resp.null }),
         ("b", { name := "b", TV := "Y", response := Resp.null })]) "b" =
      getK [("a", { name := "a", TV := "Y", response := Resp.null }),
         ("b", { name := "b", TV := "Y", response := Resp.null })] "b" :=
  ⟨(claim_C9_consumption_mode_effect
      [{ name := "a", TV := "Y", response := none }]
      [("a", { name := "a", TV := "Y", response := Resp.null }),
       ("b", { name := "b", TV := "Y", response := Resp.null })] "a").1 (by decide),
   (claim_C9_consumption_mode_effect
      [{ name := "a", TV := "Y", response := none }]
      [("a", { name := "a", TV := "Y", response := Resp.null }),
       ("b", { name := "b", TV := "Y", response := Resp.null })] "b").2.1 (by decide)⟩

/-- C7: a successful match survives any absorb whose signal neither
introduces a conflicting truth value for a name referenced by the
precondition nor (being an absorb) removes any pulse: if every pulse of
the incoming signal that shares a name with a precondition entry carries
that entry's truth value, the precondition still matches afterwards. -/
theorem claim_C7_match_monotone :
    ∀ (field : SemField) (p s : List SigPulse),
      CleanServer.fieldMatch field p = true →
      (∀ sp ∈ s, ∀ rp ∈ p, sp.name = rp.name → sp.TV = rp.TV) →
      CleanServer.fieldMatch (CleanServer.fieldAbsorb s field) p = true := by
  intro field p s
  induction s generalizing field with
  | nil =>
    intro h _
    exact h
  | cons sp rest ih =>
    intro h hcompat
    have hstep : CleanServer.fieldAbsorb (sp :: rest) field =
        CleanServer.fieldAbsorb rest
          (setK field sp.name
            { name := sp.name, TV := sp.TV, response := Resp.ofOption sp.response }) := rfl
    rw [hstep]
    apply ih
    · rw [fieldMatch_true_iff] at h ⊢
      intro rp hrp
      rw [tvAt_setK]
      by_cases hn : rp.name = sp.name
      · rw [if_pos hn]
        have : sp.TV = rp.TV :=
          hcompat sp (List.mem_cons_self sp rest) rp hrp hn.symm
        rw [this]
      · rw [if_neg hn]
        exact h rp hrp
    · intro sp2 hsp2 rp hrp hn
      exact hcompat sp2 (List.mem_cons_of_mem sp hsp2) rp hrp hn

/-- C7 witness: absorbing an unrelated pulse "b" and a re-affirmation of
"a" with the same truth value preserves a successful match on "a". -/
theorem claim_C7_match_monotone_witness :
    CleanServer.fieldMatch
      (CleanServer.fieldAbsorb
        [{ name := "b", TV := "N", response := none },
         { name := "a", TV := "Y", response := some "again" }]
        [("a", { name := "a", TV := "Y", response := Resp.null })])
      [{ name := "a", TV := "Y", response := none }] = true :=
  claim_C7_match_monotone
    [("a", { name := "a", TV := "Y", response := Resp.null })]
    [{ name := "a", TV := "Y", response := none }]
    [{ name := "b", TV := "N", response := none },
     { name := "a", TV := "Y", response := some "again" }]
    (by decide) (by decide)

-- Valve lemmas ---------------------------------------------------------

theorem any_filter_of_imp (l : List SigPulse) (pred q : SigPulse → Bool)
    (h : ∀ x, pred x = true → q x = true) :
    (l.filter q).any pred = l.any pred := by
  induction l with
  | nil => rfl
  | cons x l ih =>
    cases hq : q x with
    | true => simp [List.filter_cons, hq, ih]
    | false =>
      have hp : pred x = false := by
        cases hp : pred x with
        | false => rfl
        | true => rw [h x hp] at hq; exact absurd hq (by simp)
      simp [List.filter_cons, hq, hp, ih]

theorem all_congr_mem {A : Type} (l : List A) (f g : A → Bool)
    (h : ∀ x ∈ l, f x = g x) : l.all f = l.all g := by
  induction l with
  | nil => rfl
  | cons x l ih =>
    rw [List.all_cons, List.all_cons, h x (List.mem_cons_self x l)]
    rw [ih (fun y hy => h y (List.mem_cons_of_mem x hy))]

theorem valveCheck_depends_only_on_valve_names
    (valve signal : List SigPulse) :
    DnServer.valveCheck valve
        (signal.filter (fun ip => (valve.map (fun rp => rp.name)).contains ip.name)) =
      DnServer.valveCheck valve signal := by
  unfold DnServer.valveCheck
  apply all_congr_mem
  intro rp hrp
  apply any_filter_of_imp
  intro ip hip
  have hname : ip.name = rp.name := by
    have := (Bool.and_eq_true _ _).mp hip
    exact beq_iff_eq.mp this.1
  have hmem : rp.name ∈ valve.map (fun rp => rp.name) :=
    List.mem_map.mpr ⟨rp, hrp, rfl⟩
  rw [hname]
  exact List.elem_iff.mpr hmem

/-- C10: for a known DN whose instance is not currently running, the
`/execute` decision is `accepted` iff every valve pulse occurs in the
dispatched signal with the same name and truth value; the valve check is
unchanged when the signal is restricted to the pulses bearing valve
names (pulses with other names never affect it); and the decision and
the handler-start flag are identical for any two `activeInstances`
states in which the instance is not running — the DN server consults no
local field and no record of earlier dispatches beyond that status. -/
theorem claim_C10_valve_decision :
    ∀ (containers : List (String × DnServer.Container))
      (a1 a2 : List (String × String)) (req : DnServer.ExecuteRequest)
      (c : DnServer.Container),
      (getK containers req.target = some c →
        getK a1 (DnServer.instanceIdOf req) ≠ some "running" →
        (((DnServer.executeEndpoint containers a1 req).fst).status = "accepted" ↔
          DnServer.valveCheck c.valve req.signal = true)) ∧
      (DnServer.valveCheck c.valve
          (req.signal.filter
            (fun ip => (c.valve.map (fun rp => rp.name)).contains ip.name)) =
        DnServer.valveCheck c.valve req.signal) ∧
      (getK a1 (DnServer.instanceIdOf req) ≠ some "running" →
        getK a2 (DnServer.instanceIdOf req) ≠ some "running" →
        getK containers req.target = some c →
        (DnServer.executeEndpoint containers a1 req).fst =
          (DnServer.executeEndpoint containers a2 req).fst ∧
        (DnServer.executeEndpoint containers a1 req).snd.snd =
          (DnServer.executeEndpoint containers a2 req).snd.snd) := by
  intro containers a1 a2 req c
  refine ⟨?_, valveCheck_depends_only_on_valve_names c.valve req.signal, ?_⟩
  · intro hc hnr
    have hb : (getK a1 (DnServer.instanceIdOf req) == some "running") = false :=
      beq_eq_false_iff_ne.mpr hnr
    unfold DnServer.executeEndpoint
    rw [hc]
    simp only [hb, Bool.false_eq_true, if_false]
    cases hv : DnServer.valveCheck c.valve req.signal with
    | true => simp [hv]
    | false => simp [hv]
  · intro h1 h2 hc
    have hb1 : (getK a1 (DnServer.instanceIdOf req) == some "running") = false :=
      beq_eq_false_iff_ne.mpr h1
    have hb2 : (getK a2 (DnServer.instanceIdOf req) == some "running") = false :=
      beq_eq_false_iff_ne.mpr h2
    unfold DnServer.executeEndpoint
    rw [hc]
    simp only [hb1, hb2, Bool.false_eq_true, if_false]
    cases hv : DnServer.valveCheck c.valve req.signal with
    | true => simp [hv]
    | false => simp [hv]

/-- C10 witness: a concrete `/execute` request to DN1 whose valve wants
`start_license_request:Y` — accepted exactly because the valve matches,
with the same decision under two different dispatch histories. -/
theorem claim_C10_valve_decision_witness :
    ((DnServer.executeEndpoint
        [("DN1", { valve := [{ name := "start_license_request", TV := "Y", response := none }] })]
        []
        { cpuxId := "C1", stepId := 2, target := "DN1",
          signal := [{ name := "start_license_request", TV := "Y", response := none },
                     { name := "extra", TV := "N", response := none }],
          dnInstanceId := some "C1:2:DN1" }).fst).status = "accepted" ∧
    (DnServer.executeEndpoint
        [("DN1", { valve := [{ name := "start_license_request", TV := "Y", response := none }] })]
        []
        { cpuxId := "C1", stepId := 2, target := "DN1",
          signal := [{ name := "start_license_request", TV := "Y", response := none },
                     { name := "extra", TV := "N", response := none }],
          dnInstanceId := some "C1:2:DN1" }).fst =
      (DnServer.executeEndpoint
        [("DN1", { valve := [{ name := "start_license_request", TV := "Y", response := none }] })]
        [("C1:9:DN9", "running"), ("C1:2:DN1", "completed")]
        { cpuxId := "C1", stepId := 2, target := "DN1",
          signal := [{ name := "start_license_request", TV := "Y", response := none },
                     { name := "extra", TV := "N", response := none }],
          dnInstanceId := some "C1:2:DN1" }).fst :=
  ⟨((claim_C10_valve_decision
      [("DN1", { valve := [{ name := "start_license_request", TV := "Y", response := none }] })]
      [] []
      { cpuxId := "C1", stepId := 2, target := "DN1",
        signal := [{ name := "start_license_request", TV := "Y", response := none },
                   { name := "extra", TV := "N", response := none }],
        dnInstanceId := some "C1:2:DN1" }
      { valve := [{ name := "start_license_request", TV := "Y", response := none }] }).1
    (by decide) (by decide)).mpr (by decide),
   ((claim_C10_valve_decision
      [("DN1", { valve := [{ name := "start_license_request", TV := "Y", response := none }] })]
      [] [("C1:9:DN9", "running"), ("C1:2:DN1", "completed")]
      { cpuxId := "C1", stepId := 2, target := "DN1",
        signal := [{ name := "start_license_request", TV := "Y", response := none },
                   { name := "extra", TV := "N", response := none }],
        dnInstanceId := some "C1:2:DN1" }
      { valve := [{ name := "start_license_request", TV := "Y", response := none }] }).2.2
    (by decide) (by decide) (by decide)).1⟩


-- Scheduler lemmas (clean server) --------------------------------------

open CleanServer

theorem executeStep_snd_char (c : String) (e : Env) (st : CpuxState) (s : Step) :
    (executeStep c e st s).snd = st ∨
      ((executeStep c e st s) =
        (true, { st with
          memberStatus := setK st.memberStatus (dnInstanceId c s) "busy" }) ∧
        (s.type == "dn") = true ∧
        getK st.memberStatus (dnInstanceId c s) = some "ready" ∧
        e.dnAccepts s = true) := by
  cases h1 : (s.type == "object") with
  | true =>
    have hEq : executeStep c e st s = (e.objectPostOk s, st) := by
      simp [executeStep, h1]
    rw [hEq]
    exact Or.inl rfl
  | false =>
    cases h2 : (s.type == "dn") with
    | false =>
      cases h3 : (s.type == "final") with
      | true =>
        have hEq : executeStep c e st s = (true, st) := by
          simp [executeStep, h1, h2, h3]
        rw [hEq]
        exact Or.inl rfl
      | false =>
        have hEq : executeStep c e st s = (false, st) := by
          simp [executeStep, h1, h2, h3]
        rw [hEq]
        exact Or.inl rfl
    | true =>
      cases h3 : (getK st.memberStatus (dnInstanceId c s) != some "ready") with
      | true =>
        have hEq : executeStep c e st s = (false, st) := by
          simp [executeStep, h1, h2, h3]
        rw [hEq]
        exact Or.inl rfl
      | false =>
        have hready : getK st.memberStatus (dnInstanceId c s) = some "ready" := by
          have hb : (getK st.memberStatus (dnInstanceId c s) == some "ready") = true := by
            simpa [bne] using h3
          exact beq_iff_eq.mp hb
        cases h4 : e.dnAccepts s with
        | false =>
          have hEq : executeStep c e st s = (false, st) := by
            simp [executeStep, h1, h2, h3, h4]
          rw [hEq]
          exact Or.inl rfl
        | true =>
          have hEq : executeStep c e st s =
              (true, { st with
                memberStatus := setK st.memberStatus (dnInstanceId c s) "busy" }) := by
            simp [executeStep, h1, h2, h3, h4]
          rw [hEq]
          exact Or.inr ⟨rfl, rfl, hready, rfl⟩

theorem executeStep_field (c : String) (e : Env) (st : CpuxState) (s : Step) :
    ((executeStep c e st s).snd).cpuxField = st.cpuxField := by
  rcases executeStep_snd_char c e st s with h | ⟨h, _⟩
  · rw [h]
  · rw [h]

theorem executeStep_log (c : String) (e : Env) (st : CpuxState) (s : Step) :
    ((executeStep c e st s).snd).executionLog = st.executionLog := by
  rcases executeStep_snd_char c e st s with h | ⟨h, _⟩
  · rw [h]
  · rw [h]

theorem executeStep_not_exec (c : String) (e : Env) (st : CpuxState) (s : Step)
    (h : (executeStep c e st s).fst = false) : (executeStep c e st s).snd = st := by
  rcases executeStep_snd_char c e st s with h2 | ⟨h2, _⟩
  · exact h2
  · rw [h2] at h
    exact absurd h (by simp)

theorem executeStep_fst_char (c : String) (e : Env) (st : CpuxState) (s : Step) :
    (executeStep c e st s).fst =
      if s.type == "object" then e.objectPostOk s
      else if s.type == "dn" then
        (getK st.memberStatus (dnInstanceId c s) == some "ready") && e.dnAccepts s
      else if s.type == "final" then true
      else false := by
  unfold executeStep
  cases h1 : (s.type == "object") with
  | true => simp [h1]
  | false =>
    simp only [h1, Bool.false_eq_true, if_false]
    cases h2 : (s.type == "dn") with
    | false =>
      simp only [h2, Bool.false_eq_true, if_false]
      cases h3 : (s.type == "final") <;> simp [h3]
    | true =>
      simp only [h2, if_true]
      cases h3 : (getK st.memberStatus (dnInstanceId c s) != some "ready") with
      | true =>
        have hb : (getK st.memberStatus (dnInstanceId c s) == some "ready") = false := by
          simpa [bne] using h3
        simp [h3, hb]
      | false =>
        have hb : (getK st.memberStatus (dnInstanceId c s) == some "ready") = true := by
          simpa [bne] using h3
        cases h4 : e.dnAccepts s <;> simp [h3, h4, hb]

theorem executeStep_status (c : String) (e : Env) (st : CpuxState) (s : Step) (i : String) :
    getK ((executeStep c e st s).snd).memberStatus i = getK st.memberStatus i ∨
      (getK st.memberStatus i = some "ready" ∧
        getK ((executeStep c e st s).snd).memberStatus i = some "busy" ∧
        s.type = "dn" ∧ dnInstanceId c s = i ∧ e.dnAccepts s = true) := by
  rcases executeStep_snd_char c e st s with h | ⟨h, hdn, hready, hacc⟩
  · rw [h]
    exact Or.inl rfl
  · rw [h]
    by_cases hi : dnInstanceId c s = i
    · refine Or.inr ⟨hi ▸ hready, ?_, by simpa using hdn, hi, hacc⟩
      show getK (setK st.memberStatus (dnInstanceId c s) "busy") i = some "busy"
      rw [← hi]
      exact getK_setK_self st.memberStatus (dnInstanceId c s) "busy"
    · refine Or.inl ?_
      show getK (setK st.memberStatus (dnInstanceId c s) "busy") i = getK st.memberStatus i
      exact getK_setK_ne st.memberStatus (dnInstanceId c s) i "busy" (fun hc => hi hc.symm)

theorem logAdd_contains_self (log : List String) (k : String) :
    (logAdd log k).contains k = true := by
  unfold logAdd
  cases h : log.contains k with
  | true => simpa using h
  | false =>
    simp only [h, Bool.false_eq_true, if_false]
    exact List.elem_iff.mpr (List.mem_append_right log (List.mem_singleton.mpr rfl))

theorem logAdd_contains_mono (log : List String) (k k2 : String)
    (h : log.contains k = true) : (logAdd log k2).contains k = true := by
  unfold logAdd
  cases h2 : log.contains k2 with
  | true => simpa using h
  | false =>
    simp only [h2, Bool.false_eq_true, if_false]
    exact List.elem_iff.mpr (List.mem_append_left [k2] (List.elem_iff.mp h))

theorem passStep_snd_char (c : String) (e : Env) (st : CpuxState) (s : Step) :
    passStep c e st s = (false, st) ∨
      (passStep c e st s =
        (true, { (executeStep c e st s).snd with
          executionLog := logAdd st.executionLog (stepKey s) }) ∧
        st.executionLog.contains (stepKey s) = false ∧
        fieldMatch st.cpuxField s.designTimeSignal = true ∧
        (executeStep c e st s).fst = true) := by
  unfold passStep
  cases h1 : st.executionLog.contains (stepKey s) with
  | true => simp [h1]
  | false =>
    simp only [h1, Bool.false_eq_true, if_false]
    cases h2 : fieldMatch st.cpuxField s.designTimeSignal with
    | false => simp [h2]
    | true =>
      simp only [h2, Bool.not_true, Bool.false_eq_true, if_false]
      cases hr : executeStep c e st s with
      | mk ex st2 =>
        cases ex with
        | false =>
          have hst : st2 = st := by
            have h5 := executeStep_not_exec c e st s (by rw [hr])
            rw [hr] at h5
            exact h5
          exact Or.inl (by rw [hst])
        | true =>
          refine Or.inr ⟨?_, trivial, trivial, rfl⟩
          have hlog : st2.executionLog = st.executionLog := by
            have := executeStep_log c e st s
            rw [hr] at this
            exact this
          simp [hlog]

theorem passStep_fst_eq_willExec (c : String) (e : Env) (st : CpuxState) (s : Step) :
    (passStep c e st s).fst = willExec c e st s := by
  unfold willExec
  rcases passStep_snd_char c e st s with h | ⟨h, hlog, hmatch, hex⟩
  · rw [h]
    unfold passStep at h
    cases h1 : st.executionLog.contains (stepKey s) with
    | true => simp [h1]
    | false =>
      rw [h1] at h
      simp only [Bool.false_eq_true, if_false] at h
      cases h2 : fieldMatch st.cpuxField s.designTimeSignal with
      | false => simp [h1, h2]
      | true =>
        rw [h2] at h
        simp only [Bool.not_true, Bool.false_eq_true, if_false] at h
        simp only [h1, h2, Bool.not_false, Bool.true_and]
        cases hr : executeStep c e st s with
        | mk ex st2 =>
          rw [hr] at h
          cases ex with
          | true => simp at h
          | false => rfl
  · rw [h, hlog, hmatch, hex]
    rfl

theorem passStep_not_exec (c : String) (e : Env) (st : CpuxState) (s : Step)
    (h : (passStep c e st s).fst = false) : (passStep c e st s).snd = st := by
  rcases passStep_snd_char c e st s with h2 | ⟨h2, _⟩
  · rw [h2]
  · rw [h2] at h
    exact absurd h (by simp)

theorem passStep_field (c : String) (e : Env) (st : CpuxState) (s : Step) :
    ((passStep c e st s).snd).cpuxField = st.cpuxField := by
  rcases passStep_snd_char c e st s with h | ⟨h, _⟩
  · rw [h]
  · rw [h]
    show ((executeStep c e st s).snd).cpuxField = st.cpuxField
    exact executeStep_field c e st s

theorem passStep_log_mono (c : String) (e : Env) (st : CpuxState) (s : Step) (k : String)
    (h : st.executionLog.contains k = true) :
    ((passStep c e st s).snd).executionLog.contains k = true := by
  rcases passStep_snd_char c e st s with h2 | ⟨h2, _⟩
  · rw [h2]
    exact h
  · rw [h2]
    show (logAdd st.executionLog (stepKey s)).contains k = true
    exact logAdd_contains_mono st.executionLog k (stepKey s) h

theorem passStep_exec_log (c : String) (e : Env) (st : CpuxState) (s : Step)
    (h : (passStep c e st s).fst = true) :
    ((passStep c e st s).snd).executionLog = logAdd st.executionLog (stepKey s) := by
  rcases passStep_snd_char c e st s with h2 | ⟨h2, _⟩
  · rw [h2] at h
    exact absurd h (by simp)
  · rw [h2]

theorem passStep_status (c : String) (e : Env) (st : CpuxState) (s : Step) (i : String) :
    getK ((passStep c e st s).snd).memberStatus i = getK st.memberStatus i ∨
      (getK st.memberStatus i = some "ready" ∧
        getK ((passStep c e st s).snd).memberStatus i = some "busy" ∧
        s.type = "dn" ∧ dnInstanceId c s = i ∧ e.dnAccepts s = true) := by
  rcases passStep_snd_char c e st s with h | ⟨h, _⟩
  · rw [h]
    exact Or.inl rfl
  · rw [h]
    show getK ((executeStep c e st s).snd).memberStatus i = getK st.memberStatus i ∨ _
    exact executeStep_status c e st s i

theorem willExec_false_iff (c : String) (e : Env) (st : CpuxState) (s : Step) :
    willExec c e st s = false ↔
      (st.executionLog.contains (stepKey s) = true ∨
        fieldMatch st.cpuxField s.designTimeSignal = false ∨
        (executeStep c e st s).fst = false) := by
  unfold willExec
  cases h1 : st.executionLog.contains (stepKey s) <;>
    cases h2 : fieldMatch st.cpuxField s.designTimeSignal <;>
      cases h3 : (executeStep c e st s).fst <;> simp [h1, h2, h3]

theorem willExec_preserved (c : String) (e : Env) (st : CpuxState) (s t : Step)
    (h : willExec c e st s = false) :
    willExec c e ((passStep c e st t).snd) s = false := by
  rw [willExec_false_iff] at h ⊢
  rcases h with hlog | hmatch | hexec
  · exact Or.inl (passStep_log_mono c e st t (stepKey s) hlog)
  · refine Or.inr (Or.inl ?_)
    rw [passStep_field]
    exact hmatch
  · refine Or.inr (Or.inr ?_)
    rw [executeStep_fst_char] at hexec ⊢
    cases h1 : (s.type == "object") with
    | true =>
      rw [h1] at hexec
      simp only [if_true] at hexec
      simp [h1, hexec]
    | false =>
      cases h2 : (s.type == "dn") with
      | false =>
        cases h3 : (s.type == "final") with
        | true =>
          rw [h1, h2, h3] at hexec
          simp at hexec
        | false =>
          simp [h1, h2, h3]
      | true =>
        rw [h1, h2] at hexec
        simp only [Bool.false_eq_true, if_false, if_true] at hexec
        simp only [h1, h2, Bool.false_eq_true, if_false, if_true]
        rcases Bool.and_eq_false_iff.mp hexec with hrd | hacc
        · have hne : getK st.memberStatus (dnInstanceId c s) ≠ some "ready" :=
            beq_eq_false_iff_ne.mp hrd
          rcases passStep_status c e st t (dnInstanceId c s) with hsame | ⟨hwas, _⟩
          · rw [hsame, hrd]
            exact Bool.false_and _
          · exact absurd hwas hne
        · rw [hacc]
          exact Bool.and_false _

theorem willExec_after_self (c : String) (e : Env) (st : CpuxState) (s : Step) :
    willExec c e ((passStep c e st s).snd) s = false := by
  cases hw : (passStep c e st s).fst with
  | false =>
    rw [passStep_not_exec c e st s hw]
    rw [← passStep_fst_eq_willExec]
    exact hw
  | true =>
    rw [willExec_false_iff]
    refine Or.inl ?_
    rw [passStep_exec_log c e st s hw]
    exact logAdd_contains_self st.executionLog (stepKey s)

theorem willExec_fold_preserved (c : String) (e : Env) (rest : List Step)
    (st : CpuxState) (s : Step) (h : willExec c e st s = false) :
    willExec c e (passState c e rest st) s = false := by
  induction rest generalizing st with
  | nil => exact h
  | cons t rest ih =>
    have hstep : passState c e (t :: rest) st =
        passState c e rest ((passStep c e st t).snd) := rfl
    rw [hstep]
    exact ih ((passStep c e st t).snd) (willExec_preserved c e st s t h)

theorem pass_all_noexec (c : String) (e : Env) (sequence : List Step) (st : CpuxState)
    (s : Step) (hs : s ∈ sequence) :
    willExec c e (passState c e sequence st) s = false := by
  induction sequence generalizing st with
  | nil => exact absurd hs (List.not_mem_nil s)
  | cons t rest ih =>
    have hstep : passState c e (t :: rest) st =
        passState c e rest ((passStep c e st t).snd) := rfl
    rw [hstep]
    rcases List.mem_cons.mp hs with heq | hmem
    · subst heq
      exact willExec_fold_preserved c e rest ((passStep c e st s).snd) s
        (willExec_after_self c e st s)
    · exact ih ((passStep c e st t).snd) hmem

theorem foldl_passFold_snd (c : String) (e : Env) (sequence : List Step) (n : Nat)
    (st : CpuxState) :
    (List.foldl (passFold c e) (n, st) sequence).snd = passState c e sequence st := by
  induction sequence generalizing n st with
  | nil => rfl
  | cons t rest ih =>
    rw [List.foldl_cons]
    have hstep : passState c e (t :: rest) st =
        passState c e rest ((passStep c e st t).snd) := rfl
    rw [hstep]
    have hfold : passFold c e (n, st) t =
        ((passFold c e (n, st) t).fst, (passStep c e st t).snd) := by
      unfold passFold
      cases hr : passStep c e st t with
      | mk ex st2 => cases ex <;> simp
    rw [hfold]
    exact ih ((passFold c e (n, st) t).fst) ((passStep c e st t).snd)

theorem foldl_passFold_noexec (c : String) (e : Env) (sequence : List Step) (n : Nat)
    (st : CpuxState) (h : ∀ s ∈ sequence, willExec c e st s = false) :
    List.foldl (passFold c e) (n, st) sequence = (n, st) := by
  induction sequence with
  | nil => rfl
  | cons t rest ih =>
    rw [List.foldl_cons]
    have hw : (passStep c e st t).fst = false := by
      rw [passStep_fst_eq_willExec]
      exact h t (List.mem_cons_self t rest)
    have hfold : passFold c e (n, st) t = (n, st) := by
      unfold passFold
      cases hr : passStep c e st t with
      | mk ex st2 =>
        rw [hr] at hw
        cases ex with
        | true => exact absurd hw (by simp)
        | false =>
          have hst : st2 = st := by
            have h5 := passStep_not_exec c e st t (by rw [hr])
            rw [hr] at h5
            exact h5
          rw [hst]
    rw [hfold]
    exact ih (fun s hs => h s (List.mem_cons_of_mem t hs))

theorem passState_field (c : String) (e : Env) (sequence : List Step) (st : CpuxState) :
    (passState c e sequence st).cpuxField = st.cpuxField := by
  induction sequence generalizing st with
  | nil => rfl
  | cons t rest ih =>
    have hstep : passState c e (t :: rest) st =
        passState c e rest ((passStep c e st t).snd) := rfl
    rw [hstep, ih ((passStep c e st t).snd), passStep_field]

theorem passState_status (c : String) (e : Env) (sequence : List Step) (st : CpuxState)
    (i : String) :
    getK (passState c e sequence st).memberStatus i = getK st.memberStatus i ∨
      (getK st.memberStatus i = some "ready" ∧
        getK (passState c e sequence st).memberStatus i = some "busy" ∧
        ∃ s, s ∈ sequence ∧ s.type = "dn" ∧ dnInstanceId c s = i ∧
          e.dnAccepts s = true) := by
  induction sequence generalizing st with
  | nil => exact Or.inl rfl
  | cons t rest ih =>
    have hstep : passState c e (t :: rest) st =
        passState c e rest ((passStep c e st t).snd) := rfl
    rw [hstep]
    rcases ih ((passStep c e st t).snd) with hsame | ⟨hwas, hbusy, s, hmem, hdn, hiid, hacc⟩
    · rw [hsame]
      rcases passStep_status c e st t i with hsame2 | ⟨hwas2, hbusy2, hdn2, hiid2, hacc2⟩
      · exact Or.inl hsame2
      · exact Or.inr ⟨hwas2, hbusy2, t, List.mem_cons_self t rest, hdn2, hiid2, hacc2⟩
    · rcases passStep_status c e st t i with hsame2 | ⟨hwas2, hbusy2, _⟩
      · rw [hsame2] at hwas
        exact Or.inr ⟨hwas, hbusy, s, List.mem_cons_of_mem t hmem, hdn, hiid, hacc⟩
      · rw [hbusy2] at hwas
        exact absurd hwas (by decide)

/-- C6: re-running a pass on the state a pass just produced, with the
same remote behaviour and no intervening emission, yields zero
activations — passes are idempotent. -/
theorem claim_C6_pass_idempotent :
    ∀ (contextId : String) (env : CleanServer.Env) (sequence : List CleanServer.Step)
      (st : CleanServer.CpuxState),
      (CleanServer.executeSequencePass contextId env sequence
        ((CleanServer.executeSequencePass contextId env sequence st).snd)).fst = 0 := by
  intro c e seq st
  unfold CleanServer.executeSequencePass
  rw [foldl_passFold_snd c e seq 0 st]
  rw [foldl_passFold_noexec c e seq 0 (passState c e seq st)
    (fun s hs => pass_all_noexec c e seq st s hs)]

/-- C3 counterexample: a single DN step whose dispatch is accepted has
its key in the execution log immediately after the dispatching pass,
although no result has been emitted or absorbed — the field coming out
of the pass is untouched.  This refutes "the key is appended only after
the emitted result has been absorbed at intake, never at dispatch
time". -/
theorem claim_C3_counterexample :
    ((CleanServer.executeSequencePass "C1" ⟨fun _ => true, fun _ => true⟩
        [⟨2, "fetch_personal_detail", [⟨"start_license_request", "Y", none⟩],
          "DN1", "dn"⟩]
        ⟨[("start_license_request", ⟨"start_license_request", "Y", Resp.null⟩)],
          [], [("C1:2:DN1", "ready")]⟩).snd).executionLog =
      ["2:fetch_personal_detail:DN1"] ∧
    ((CleanServer.executeSequencePass "C1" ⟨fun _ => true, fun _ => true⟩
        [⟨2, "fetch_personal_detail", [⟨"start_license_request", "Y", none⟩],
          "DN1", "dn"⟩]
        ⟨[("start_license_request", ⟨"start_license_request", "Y", Resp.null⟩)],
          [], [("C1:2:DN1", "ready")]⟩).snd).cpuxField =
      [("start_license_request", ⟨"start_license_request", "Y", Resp.null⟩)] :=
  ⟨by decide, by decide⟩

/-- C3 (amended): in `clean_cpux_server.js` a DN-kind step's key is
appended to the execution log at dispatch time, as soon as the remote
node accepts (the pass leaves the field untouched, so no result was
absorbed), and the intake endpoint itself appends nothing to the log —
any growth of the log on intake comes from the scheduler pass it
triggers. -/
theorem claim_C3_log_at_dispatch :
    ∀ (contextId : String) (env : CleanServer.Env) (st : CleanServer.CpuxState)
      (step : CleanServer.Step),
      step.type = "dn" →
      st.executionLog.contains (CleanServer.stepKey step) = false →
      CleanServer.fieldMatch st.cpuxField step.designTimeSignal = true →
      getK st.memberStatus (CleanServer.dnInstanceId contextId step) = some "ready" →
      env.dnAccepts step = true →
      (((CleanServer.executeSequencePass contextId env [step] st).snd).executionLog.contains
          (CleanServer.stepKey step) = true ∧
        ((CleanServer.executeSequencePass contextId env [step] st).snd).cpuxField =
          st.cpuxField) ∧
      (∀ (cpuxId : String) (signal : List SigPulse) (iidReq : Option String)
          (st2 : CleanServer.CpuxState),
        ((CleanServer.receiveEmission contextId env [] cpuxId signal iidReq
            st2).fst).executionLog = st2.executionLog) := by
  intro c e st s htype hlog hmatch hstatus hacc
  constructor
  · have hpass : (CleanServer.executeSequencePass c e [s] st).snd =
        (passStep c e st s).snd := by
      unfold CleanServer.executeSequencePass
      rw [List.foldl_cons, List.foldl_nil]
      unfold passFold
      cases hr : passStep c e st s with
      | mk ex stx => cases ex <;> simp
    rw [hpass]
    refine ⟨?_, passStep_field c e st s⟩
    have hfst : (passStep c e st s).fst = true := by
      rw [passStep_fst_eq_willExec]
      unfold willExec
      rw [hlog, hmatch, executeStep_fst_char, htype]
      have hb : (getK st.memberStatus (CleanServer.dnInstanceId c s) ==
          some "ready") = true := beq_iff_eq.mpr hstatus
      simp [hb, hacc]
    rw [passStep_exec_log c e st s hfst]
    exact logAdd_contains_self st.executionLog (CleanServer.stepKey s)
  · intro cp sig iid st2
    unfold CleanServer.receiveEmission
    cases h : (cp != c) with
    | true => simp [h]
    | false =>
      cases iid <;> simp [h, CleanServer.executeSequencePass]

/-- C3 witness for the amended claim, at the counterexample's input. -/
theorem claim_C3_log_at_dispatch_witness :
    (((CleanServer.executeSequencePass "C1" ⟨fun _ => true, fun _ => true⟩
        [⟨2, "fetch_personal_detail", [⟨"start_license_request", "Y", none⟩],
          "DN1", "dn"⟩]
        ⟨[("start_license_request", ⟨"start_license_request", "Y", Resp.null⟩)],
          [], [("C1:2:DN1", "ready")]⟩).snd).executionLog.contains
        "2:fetch_personal_detail:DN1" = true) ∧
    ((CleanServer.receiveEmission "C1" ⟨fun _ => true, fun _ => true⟩ [] "C1"
        [⟨"personal_detail", "Y", none⟩] (some "C1:2:DN1")
        ⟨[], ["k"], []⟩).fst).executionLog = ["k"] :=
  ⟨((claim_C3_log_at_dispatch "C1" ⟨fun _ => true, fun _ => true⟩
      ⟨[("start_license_request", ⟨"start_license_request", "Y", Resp.null⟩)],
        [], [("C1:2:DN1", "ready")]⟩
      ⟨2, "fetch_personal_detail", [⟨"start_license_request", "Y", none⟩], "DN1", "dn"⟩
      (by decide) (by decide) (by decide) (by decide) (by decide)).1).1,
   (claim_C3_log_at_dispatch "C1" ⟨fun _ => true, fun _ => true⟩
      ⟨[("start_license_request", ⟨"start_license_request", "Y", Resp.null⟩)],
        [], [("C1:2:DN1", "ready")]⟩
      ⟨2, "fetch_personal_detail", [⟨"start_license_request", "Y", none⟩], "DN1", "dn"⟩
      (by decide) (by decide) (by decide) (by decide) (by decide)).2
    "C1" [⟨"personal_detail", "Y", none⟩] (some "C1:2:DN1")
    ⟨[], ["k"], []⟩⟩

/-- C4: when the intake endpoint receives an emission tagged with the
wrong run context id it replies with an error before any state is
touched, running no pass; when the id matches, the emitted signal is
absorbed into the field, the named DN instance is set back to ready,
exactly one scheduler pass runs on the updated state, and — since a
pass never writes the field — the resulting field is exactly the
absorbed one. -/
theorem claim_C4_intake_contract :
    ∀ (contextId cpuxId : String) (env : CleanServer.Env)
      (sequence : List CleanServer.Step) (signal : List SigPulse) (iid : String)
      (st : CleanServer.CpuxState),
      (cpuxId ≠ contextId →
        CleanServer.receiveEmission contextId env sequence cpuxId signal (some iid) st =
          (st, 0, some "Wrong CPUX context")) ∧
      (cpuxId = contextId →
        CleanServer.receiveEmission contextId env sequence cpuxId signal (some iid) st =
          ((CleanServer.executeSequencePass contextId env sequence
            { cpuxField := CleanServer.fieldAbsorb signal st.cpuxField,
              executionLog := st.executionLog,
              memberStatus := setK st.memberStatus iid "ready" }).snd, 1, none) ∧
        getK (setK st.memberStatus iid "ready") iid = some "ready" ∧
        ((CleanServer.receiveEmission contextId env sequence cpuxId signal (some iid)
            st).fst).cpuxField = CleanServer.fieldAbsorb signal st.cpuxField) := by
  intro c cp e seq sig iid st
  constructor
  · intro hne
    have hb : (cp != c) = true := bne_iff_ne.mpr hne
    simp [CleanServer.receiveEmission, hb]
  · intro heq
    subst heq
    have hb : (cp != cp) = false := by simp
    refine ⟨?_, getK_setK_self st.memberStatus iid "ready", ?_⟩
    · simp only [CleanServer.receiveEmission, hb, Bool.false_eq_true, if_false]
    · simp only [CleanServer.receiveEmission, hb, Bool.false_eq_true, if_false]
      unfold CleanServer.executeSequencePass
      rw [foldl_passFold_snd, passState_field]

/-- C4 witness: the mismatch branch rejects unchanged and the match
branch produces the absorbed field. -/
theorem claim_C4_intake_contract_witness :
    CleanServer.receiveEmission "C1" ⟨fun _ => true, fun _ => true⟩ [] "OTHER"
        [⟨"personal_detail", "Y", none⟩] (some "C1:2:DN1") ⟨[], [], []⟩ =
      (⟨[], [], []⟩, 0, some "Wrong CPUX context") ∧
    ((CleanServer.receiveEmission "C1" ⟨fun _ => true, fun _ => true⟩ [] "C1"
        [⟨"personal_detail", "Y", none⟩] (some "C1:2:DN1")
        ⟨[], [], []⟩).fst).cpuxField =
      CleanServer.fieldAbsorb [⟨"personal_detail", "Y", none⟩] [] :=
  ⟨(claim_C4_intake_contract "C1" "OTHER" ⟨fun _ => true, fun _ => true⟩ []
      [⟨"personal_detail", "Y", none⟩] "C1:2:DN1" ⟨[], [], []⟩).1 (by decide),
   ((claim_C4_intake_contract "C1" "C1" ⟨fun _ => true, fun _ => true⟩ []
      [⟨"personal_detail", "Y", none⟩] "C1:2:DN1" ⟨[], [], []⟩).2 rfl).2.2⟩

/-- C5: at most one dispatch is in flight per instance id.  On the DN
server, a request whose instance is recorded as running is rejected
with reason `instance_busy`, leaves the instance table unchanged and
does not start the handler; on the scheduler, a DN step whose instance
is not ready is skipped with no state change; and across a whole pass
the only status transition is ready-to-busy, caused by an accepted
dispatch of a DN step addressing that instance. -/
theorem claim_C5_single_inflight :
    ∀ (containers : List (String × DnServer.Container))
      (activeInstances : List (String × String)) (req : DnServer.ExecuteRequest)
      (container : DnServer.Container) (contextId : String) (env : CleanServer.Env)
      (st : CleanServer.CpuxState) (step : CleanServer.Step)
      (sequence : List CleanServer.Step) (iid : String),
      (getK containers req.target = some container →
        getK activeInstances (DnServer.instanceIdOf req) = some "running" →
        DnServer.executeEndpoint containers activeInstances req =
          ({ status := "rejected", reason := some "instance_busy" },
            activeInstances, false)) ∧
      (step.type = "dn" →
        getK st.memberStatus (CleanServer.dnInstanceId contextId step) ≠ some "ready" →
        CleanServer.executeStep contextId env st step = (false, st)) ∧
      (getK ((CleanServer.executeSequencePass contextId env sequence
            st).snd).memberStatus iid ≠ getK st.memberStatus iid →
        getK st.memberStatus iid = some "ready" ∧
        getK ((CleanServer.executeSequencePass contextId env sequence
            st).snd).memberStatus iid = some "busy" ∧
        ∃ s, s ∈ sequence ∧ s.type = "dn" ∧
          CleanServer.dnInstanceId contextId s = iid ∧ env.dnAccepts s = true) := by
  intro containers active req cont c e st step seq iid
  refine ⟨?_, ?_, ?_⟩
  · intro hc hrun
    have hb : (getK active (DnServer.instanceIdOf req) == some "running") = true :=
      beq_iff_eq.mpr hrun
    unfold DnServer.executeEndpoint
    rw [hc]
    simp [hb]
  · intro htype hstatus
    have hb : (getK st.memberStatus (CleanServer.dnInstanceId c step) !=
        some "ready") = true := bne_iff_ne.mpr hstatus
    simp [CleanServer.executeStep, htype, hb]
  · intro hchange
    unfold CleanServer.executeSequencePass at hchange ⊢
    rw [foldl_passFold_snd] at hchange ⊢
    rcases passState_status c e seq st iid with hsame | hright
    · exact absurd hsame hchange
    · exact hright

/-- C5 witness: a concrete busy rejection, a concrete skipped step, and
a concrete ready-to-busy transition recognised by the pass. -/
theorem claim_C5_single_inflight_witness :
    DnServer.executeEndpoint [("DN1", ⟨[]⟩)] [("C1:2:DN1", "running")]
        ⟨"C1", 2, "DN1", [], some "C1:2:DN1"⟩ =
      ({ status := "rejected", reason := some "instance_busy" },
        [("C1:2:DN1", "running")], false) ∧
    CleanServer.executeStep "C1" ⟨fun _ => true, fun _ => true⟩
        ⟨[], [], [("C1:2:DN1", "busy")]⟩
        ⟨2, "fetch", [], "DN1", "dn"⟩ =
      (false, ⟨[], [], [("C1:2:DN1", "busy")]⟩) ∧
    getK ((CleanServer.executeSequencePass "C1" ⟨fun _ => true, fun _ => true⟩
        [⟨2, "fetch", [], "DN1", "dn"⟩]
        ⟨[], [], [("C1:2:DN1", "ready")]⟩).snd).memberStatus "C1:2:DN1" = some "busy" :=
  ⟨(claim_C5_single_inflight [("DN1", ⟨[]⟩)] [("C1:2:DN1", "running")]
      ⟨"C1", 2, "DN1", [], some "C1:2:DN1"⟩ ⟨[]⟩ "C1" ⟨fun _ => true, fun _ => true⟩
      ⟨[], [], []⟩ ⟨2, "fetch", [], "DN1", "dn"⟩ [] "i").1 (by decide) (by decide),
   (claim_C5_single_inflight [] [] ⟨"C1", 2, "DN1", [], none⟩ ⟨[]⟩ "C1"
      ⟨fun _ => true, fun _ => true⟩ ⟨[], [], [("C1:2:DN1", "busy")]⟩
      ⟨2, "fetch", [], "DN1", "dn"⟩ [] "i").2.1 (by decide) (by decide),
   ((claim_C5_single_inflight [] [] ⟨"C1", 2, "DN1", [], none⟩ ⟨[]⟩ "C1"
      ⟨fun _ => true, fun _ => true⟩ ⟨[], [], [("C1:2:DN1", "ready")]⟩
      ⟨2, "fetch", [], "DN1", "dn"⟩ [⟨2, "fetch", [], "DN1", "dn"⟩]
      "C1:2:DN1").2.2 (by decide)).2.1⟩
